import Mathlib

/-!
# Heap memory manager (`HMM.c`)

A shallow embedding of the allocator in `src/HMM.c`: the four entry points
`malloc`, `free`, `calloc`, `realloc` and the engine `HmmAlloc` / `HmmFree`
underneath them.

* Machine words (`size_t`, `uintptr_t`, `void*`) are natural numbers below
  `Arch.wordMod`; C's unsigned arithmetic is written with explicit reduction
  modulo `Arch.wordMod`.
* The process state is a record `Heap`: the program break, the two limits
  between which the kernel accepts a break, the byte contents of memory, the
  global `heap_base`, and a ghost log of the calls made to the C library and
  to `HmmFree`.
* `sbrk`, `memset` and `memcpy` are not part of the repository; they are
  modelled after their manual pages.
-/

namespace HMM

/-! ## Data model -/

/-- The target's data model.  `lgPtr` is the binary logarithm of
`sizeof(void*)`; `size_t`, `uintptr_t` and `intptr_t` are as wide as a
pointer. -/
structure Arch where
  lgPtr : Nat
  deriving DecidableEq

/-- The value of `sizeof(void*)`, in bytes. -/
def Arch.ptrSize (a : Arch) : Nat := 2 ^ a.lgPtr

/-- Width of a machine word in bits. -/
def Arch.bits (a : Arch) : Nat := 8 * a.ptrSize

/-- The modulus of word arithmetic, `SIZE_MAX + 1`. -/
def Arch.wordMod (a : Arch) : Nat := 2 ^ a.bits

/-- The usual 64-bit data model: 8-byte pointers. -/
def lp64 : Arch := ⟨3⟩

/-- The usual 32-bit data model: 4-byte pointers. -/
def ilp32 : Arch := ⟨2⟩

/-- Unsigned word addition. -/
def wadd (a : Arch) (x y : Nat) : Nat := (x + y) % a.wordMod

/-- Unsigned word subtraction. -/
def wsub (a : Arch) (x y : Nat) : Nat :=
  (x % a.wordMod + (a.wordMod - y % a.wordMod)) % a.wordMod

/-- Unsigned word multiplication. -/
def wmul (a : Arch) (x y : Nat) : Nat := (x * y) % a.wordMod

/-- Bitwise complement of a word, C's `~`. -/
def wnot (a : Arch) (x : Nat) : Nat := a.wordMod - 1 - x % a.wordMod

/-- Conversion of a word to `intptr_t` (two's complement). -/
def toIntptr (a : Arch) (x : Nat) : Int :=
  if x % a.wordMod < a.wordMod / 2 then ((x % a.wordMod : Nat) : Int)
  else ((x % a.wordMod : Nat) : Int) - (a.wordMod : Int)

/-- The null pointer. -/
def NULL : Nat := 0

/-- The failure value of `sbrk`, `(void*)-1`. -/
def sbrkFailed (a : Arch) : Nat := a.wordMod - 1

/-- One entry of the ghost call log. -/
inductive Call where
  | sbrk (increment : Int)
  | memset (s c n : Nat)
  | memcpy (dest src n : Nat)
  | HmmFree (ptr : Nat)
  deriving DecidableEq

/-- The state of the process as the allocator sees it. -/
structure Heap where
  /-- the current program break (the high-water mark of the arena) -/
  brk : Nat
  /-- the lowest break the kernel accepts (the start of the heap segment) -/
  brkMin : Nat
  /-- the highest break the kernel grants -/
  brkMax : Nat
  /-- byte contents of memory, by address -/
  mem : Nat → Nat
  /-- the global variable `heap_base` -/
  heap_base : Nat
  /-- ghost: the calls made so far to `sbrk`, `memset`, `memcpy`, `HmmFree` -/
  calls : List Call

/-! ## The C library -/

/-- The library call `sbrk(increment)`, after sbrk(2): the argument is an
`intptr_t`; an increment of zero reports the break; otherwise the break moves
by the signed increment when the new break is an address the kernel accepts,
and the previous break is returned; on failure the break stays and
`(void*)-1` is returned. -/
def sbrk (a : Arch) (st : Heap) (increment : Nat) : Nat × Heap :=
  let inc := toIntptr a increment
  let st1 : Heap := { st with calls := st.calls ++ [Call.sbrk inc] }
  let new : Int := (st.brk : Int) + inc
  if inc = 0 then (st.brk, st1)
  else if 0 ≤ new ∧ new < (a.wordMod : Int) ∧ (st.brkMin : Int) ≤ new ∧ new ≤ (st.brkMax : Int) then
    (st.brk, { st1 with brk := new.toNat })
  else (sbrkFailed a, st1)

/-- The library call `memset(s, c, n)`: the `n` bytes from `s` are set to `c`
converted to `unsigned char`. -/
def memset (st : Heap) (s c n : Nat) : Heap :=
  { st with
    mem := fun x => if s ≤ x ∧ x < s + n then c % 256 else st.mem x
    calls := st.calls ++ [Call.memset s c n] }

/-- The byte loop of `memcpy`: bytes `i`, `i+1`, ..., `i+n-1` are copied from
`src` to `dest`, in ascending order. -/
def copyFwd (dest src : Nat) : Nat → Nat → (Nat → Nat) → (Nat → Nat)
  | 0, _, m => m
  | n + 1, i, m => copyFwd dest src n (i + 1) (Function.update m (dest + i) (m (src + i)))

/-- The library call `memcpy(dest, src, n)` as the ascending byte loop.  (ISO C
leaves the result undefined when the two ranges overlap; the log keeps the
arguments, so that overlap can be observed.) -/
def memcpy (st : Heap) (dest src n : Nat) : Heap :=
  { st with
    mem := copyFwd dest src n 0 st.mem
    calls := st.calls ++ [Call.memcpy dest src n] }

/-! ## The allocator (`src/HMM.c`) -/

/-- The engine `HmmAlloc(size)` (HMM.c, lines 96-110). -/
def HmmAlloc (a : Arch) (st : Heap) (size : Nat) : Nat × Heap :=
  let r := sbrk a st (wadd a size a.ptrSize)
  let ptr := r.1
  if ptr = sbrkFailed a then (NULL, r.2)
  else
    let aligned := wsub a (wadd a ptr a.ptrSize) 1 &&& wnot a (wsub a a.ptrSize 1)
    (aligned, r.2)

/-- The engine `HmmFree(ptr)` (HMM.c, lines 115-122): the body is empty; only
the ghost log records the call. -/
def HmmFree (st : Heap) (ptr : Nat) : Heap :=
  { st with calls := st.calls ++ [Call.HmmFree ptr] }

/-- The entry point `malloc(size)` (HMM.c, lines 15-24). -/
def malloc (a : Arch) (st : Heap) (size : Nat) : Nat × Heap :=
  if size = 0 then (NULL, st) else HmmAlloc a st size

/-- The entry point `free(ptr)` (HMM.c, lines 27-36). -/
def free (st : Heap) (ptr : Nat) : Heap :=
  if ptr = NULL then st else HmmFree st ptr

/-- The entry point `calloc(nmemb, size)` (HMM.c, lines 40-55). -/
def calloc (a : Arch) (st : Heap) (nmemb size : Nat) : Nat × Heap :=
  let total_size := wmul a nmemb size
  let r := HmmAlloc a st total_size
  let ptr := r.1
  if ptr ≠ NULL then (ptr, memset r.2 ptr 0 total_size) else (ptr, r.2)

/-- The entry point `realloc(ptr, size)` (HMM.c, lines 59-84). -/
def realloc (a : Arch) (st : Heap) (ptr size : Nat) : Nat × Heap :=
  if ptr = NULL then HmmAlloc a st size
  else if size = 0 then (NULL, HmmFree st ptr)
  else
    let r := HmmAlloc a st size
    let new_ptr := r.1
    if new_ptr ≠ NULL ∧ ptr ≠ NULL then (new_ptr, HmmFree (memcpy r.2 new_ptr ptr size) ptr)
    else (new_ptr, r.2)

/-! ## Concrete states -/

/-- A fresh 64-bit process: the heap segment starts at `0x1000`, the kernel
grants up to `0x100000`, memory reads as zero and nothing has been called. -/
def fresh : Heap :=
  { brk := 0x1000, brkMin := 0x1000, brkMax := 0x100000,
    mem := fun _ => 0, heap_base := 0, calls := [] }

/-- A 64-bit heap holding one 16-byte block at `0x1000` filled with the
pattern 1, 2, ..., 16; the break is just past the block's grant. -/
def patterned : Heap :=
  { fresh with
    brk := 0x1018
    mem := fun x => if 0x1000 ≤ x ∧ x < 0x1010 then x - 0x1000 + 1 else 0 }

/-- A 64-bit heap whose break has reached the kernel's limit: `sbrk` cannot
grow it. -/
def exhausted : Heap := { patterned with brkMax := 0x1018 }

/-- Scenario "release then allocate": `p1 = malloc(64)` on the fresh heap. -/
def reuse1 : Nat × Heap := malloc lp64 fresh 64

/-- Scenario "release then allocate": `free(p1); p2 = malloc(64)`. -/
def reuse2 : Nat × Heap := malloc lp64 (free reuse1.2 reuse1.1) 64

/-- Scenario "coalescing": `p1 = malloc(32)` on the fresh heap. -/
def coalesce1 : Nat × Heap := malloc lp64 fresh 32

/-- Scenario "coalescing": `p2 = malloc(32)`. -/
def coalesce2 : Nat × Heap := malloc lp64 coalesce1.2 32

/-- Scenario "coalescing": the state after `free(p1); free(p2)`. -/
def coalesceFreed : Heap := free (free coalesce2.2 coalesce1.1) coalesce2.1

/-- Scenario "coalescing": `p3 = malloc(64)`. -/
def coalesce3 : Nat × Heap := malloc lp64 coalesceFreed 64

/-- Scenario "huge request": `p1 = malloc(16)` on the fresh heap. -/
def huge1 : Nat × Heap := malloc lp64 fresh 16

/-- Scenario "huge request": `p2 = malloc(SIZE_MAX - 31)`, a request whose
size plus `sizeof(void*)` is `-24` as an `intptr_t`. -/
def huge2 : Nat × Heap := malloc lp64 huge1.2 (2 ^ 64 - 32)

/-- Scenario "huge request": `p3 = malloc(16)`. -/
def huge3 : Nat × Heap := malloc lp64 huge2.2 16

/-- Scenario "calloc overflow": `calloc(2^32, 2^32)` on the fresh heap; the
product of the two arguments is `2^64`. -/
def overflowed : Nat × Heap := calloc lp64 fresh (2 ^ 32) (2 ^ 32)

/-- Scenario "calloc overflow": `calloc(2^63 + 8, 2)` on the fresh heap; the
product of the two arguments is `2^64 + 16`. -/
def wrapped16 : Nat × Heap := calloc lp64 fresh (2 ^ 63 + 8) 2

/-- Scenario "negative increment": `HmmAlloc(SIZE_MAX - 8)` on the heap left by
`malloc(16)`; the size plus `sizeof(void*)` is `SIZE_MAX`, which does not wrap
and is `-1` as an `intptr_t`. -/
def carved : Nat × Heap := HmmAlloc lp64 huge1.2 (2 ^ 64 - 9)

/-- Scenario "grow a block": `p = malloc(16)` on the fresh heap. -/
def grow1 : Nat × Heap := malloc lp64 fresh 16

/-- Scenario "grow a block": `q = realloc(p, 64)` right after. -/
def grow2 : Nat × Heap := realloc lp64 grow1.2 grow1.1 64

/-! ## Sequences of calls -/

/-- One call of an entry point, with its arguments. -/
inductive Op where
  | malloc (size : Nat)
  | calloc (nmemb size : Nat)
  | realloc (ptr size : Nat)
  | free (ptr : Nat)
  deriving DecidableEq

/-- The size a call hands to `HmmAlloc` when it reaches it: the argument of
`malloc` and `realloc`, the wrapped product for `calloc`. -/
def Op.size (a : Arch) : Op → Nat
  | Op.malloc n => n
  | Op.calloc n s => wmul a n s
  | Op.realloc _ n => n
  | Op.free _ => 0

/-- Executes one call; `free` returns nothing, which is recorded as `NULL`. -/
def exec (a : Arch) (st : Heap) : Op → Nat × Heap
  | Op.malloc n => malloc a st n
  | Op.calloc n s => calloc a st n s
  | Op.realloc p n => realloc a st p n
  | Op.free p => (NULL, free st p)

/-- Executes a sequence of calls and collects the returned pointers in
order. -/
def run (a : Arch) : Heap → List Op → List Nat × Heap
  | st, [] => ([], st)
  | st, op :: ops => ((exec a st op).1 :: (run a (exec a st op).2 ops).1,
      (run a (exec a st op).2 ops).2)

/-- The non-null pointers returned by a sequence of calls, in order. -/
def returned (a : Arch) (st : Heap) (ops : List Op) : List Nat :=
  (run a st ops).1.filter (fun p => p ≠ NULL)

/-- A sequence of calls mixing all four entry points. -/
def session : List Op :=
  [Op.malloc 16, Op.free 0x1000, Op.calloc 2 8, Op.malloc 0, Op.realloc 0x1018 64,
   Op.free 0x1018, Op.free 0x1030, Op.realloc 0 5, Op.realloc 0x1078 0, Op.malloc 32]

/-! ## Arithmetic of the data model -/

theorem Arch.ptrSize_pos (a : Arch) : 0 < a.ptrSize := Nat.two_pow_pos _

theorem Arch.lgPtr_lt_bits (a : Arch) : a.lgPtr < a.bits := by
  have h := Nat.lt_two_pow a.lgPtr
  unfold Arch.bits Arch.ptrSize
  omega

theorem Arch.two_ptrSize_le (a : Arch) : 2 * a.ptrSize ≤ a.wordMod := by
  have h : 2 ^ (a.lgPtr + 1) ≤ 2 ^ a.bits :=
    Nat.pow_le_pow_right (by decide) a.lgPtr_lt_bits
  rw [pow_succ] at h
  unfold Arch.ptrSize Arch.wordMod
  omega

theorem Arch.wordMod_pos (a : Arch) : 0 < a.wordMod := Nat.two_pow_pos _

theorem land_mask (n k y : Nat) (hk : k ≤ n) (hy : y < 2 ^ n) :
    y &&& (2 ^ n - 1 - (2 ^ k - 1)) = 2 ^ k * (y / 2 ^ k) := by
  have hm : 2 ^ n - 1 - (2 ^ k - 1) = 2 ^ n - ((2 ^ k - 1) + 1) := by omega
  have hlt : 2 ^ k - 1 < 2 ^ n := by
    have := Nat.pow_le_pow_right (show 0 < 2 by decide) hk
    have := Nat.two_pow_pos k
    omega
  apply Nat.eq_of_testBit_eq
  intro i
  rw [Nat.testBit_and, hm, Nat.testBit_two_pow_sub_succ hlt, Nat.testBit_two_pow_sub_one,
    Nat.testBit_mul_pow_two]
  by_cases hik : k ≤ i
  · by_cases hin : i < n
    · have : ¬ i < k := by omega
      have e : k + (i - k) = i := by omega
      simp [hik, hin, this, ← Nat.shiftRight_eq_div_pow, e]
    · have : y.testBit i = false :=
        Nat.testBit_eq_false_of_lt (lt_of_lt_of_le hy (Nat.pow_le_pow_right (by decide) (by omega)))
      simp [hin, this, hik]
      have : y / 2 ^ k < 2 ^ (i - k) := by
        rw [Nat.div_lt_iff_lt_mul (Nat.two_pow_pos k), ← pow_add]
        exact lt_of_lt_of_le hy (Nat.pow_le_pow_right (by decide) (by omega))
      exact Nat.testBit_eq_false_of_lt this
  · have : i < k := by omega
    simp [hik, this]

theorem Arch.ptrSize_lt (a : Arch) : a.ptrSize < a.wordMod := by
  have h1 := a.two_ptrSize_le
  have h2 := a.ptrSize_pos
  omega

theorem wsub_ptrSize_one (a : Arch) : wsub a a.ptrSize 1 = a.ptrSize - 1 := by
  have h1 := a.two_ptrSize_le
  have h2 := a.ptrSize_pos
  unfold wsub
  rw [Nat.mod_eq_of_lt a.ptrSize_lt, Nat.mod_eq_of_lt (show 1 < a.wordMod by omega)]
  have e : a.ptrSize + (a.wordMod - 1) = (a.ptrSize - 1) + a.wordMod := by omega
  rw [e, Nat.add_mod_right, Nat.mod_eq_of_lt (by omega)]

theorem wsub_wadd_one (a : Arch) (x : Nat) :
    wsub a (wadd a x a.ptrSize) 1 = (x + a.ptrSize - 1) % a.wordMod := by
  have h1 := a.two_ptrSize_le
  have h2 := a.ptrSize_pos
  unfold wsub wadd
  rw [Nat.mod_mod, Nat.mod_eq_of_lt (show 1 < a.wordMod by omega), Nat.mod_add_mod]
  have e : x + a.ptrSize + (a.wordMod - 1) = (x + a.ptrSize - 1) + a.wordMod := by omega
  rw [e, Nat.add_mod_right]

theorem aligned_eq (a : Arch) (x : Nat) :
    wsub a (wadd a x a.ptrSize) 1 &&& wnot a (wsub a a.ptrSize 1)
      = a.ptrSize * ((x + a.ptrSize - 1) % a.wordMod / a.ptrSize) := by
  have h1 := a.two_ptrSize_le
  have h2 := a.ptrSize_pos
  rw [wsub_wadd_one, wsub_ptrSize_one]
  unfold wnot
  rw [Nat.mod_eq_of_lt (show a.ptrSize - 1 < a.wordMod by omega)]
  exact land_mask a.bits a.lgPtr _ (le_of_lt a.lgPtr_lt_bits) (Nat.mod_lt _ a.wordMod_pos)

theorem HmmAlloc_eq (a : Arch) (st : Heap) (size : Nat) :
    HmmAlloc a st size =
      if (sbrk a st (wadd a size a.ptrSize)).1 = sbrkFailed a then
        (NULL, (sbrk a st (wadd a size a.ptrSize)).2)
      else (a.ptrSize * (((sbrk a st (wadd a size a.ptrSize)).1 + a.ptrSize - 1) % a.wordMod
              / a.ptrSize), (sbrk a st (wadd a size a.ptrSize)).2) := by
  unfold HmmAlloc
  simp only [aligned_eq]

theorem HmmAlloc_snd (a : Arch) (st : Heap) (size : Nat) :
    (HmmAlloc a st size).2 = (sbrk a st (wadd a size a.ptrSize)).2 := by
  rw [HmmAlloc_eq]; split_ifs <;> rfl

theorem HmmAlloc_aligned (a : Arch) (st : Heap) (size : Nat) :
    (HmmAlloc a st size).1 % a.ptrSize = 0 := by
  rw [HmmAlloc_eq]
  split_ifs
  · exact Nat.zero_mod _
  · exact Nat.mul_mod_right _ _

theorem sbrk_mem (a : Arch) (st : Heap) (n : Nat) : (sbrk a st n).2.mem = st.mem := by
  unfold sbrk; simp only []; split_ifs <;> rfl

theorem sbrk_calls (a : Arch) (st : Heap) (n : Nat) :
    (sbrk a st n).2.calls = st.calls ++ [Call.sbrk (toIntptr a n)] := by
  unfold sbrk; simp only []; split_ifs <;> rfl

theorem sbrk_fst (a : Arch) (st : Heap) (n : Nat) :
    (sbrk a st n).1 = st.brk ∨ (sbrk a st n).1 = sbrkFailed a := by
  unfold sbrk; simp only []; split_ifs <;> simp

/-- What a call of `sbrk` that does not report failure has done. -/
theorem sbrk_ok (a : Arch) (st : Heap) (n : Nat) (hb : st.brk < a.wordMod)
    (h : (sbrk a st n).1 ≠ sbrkFailed a) :
    (sbrk a st n).1 = st.brk ∧
    ((sbrk a st n).2.brk : Int) = (st.brk : Int) + toIntptr a n ∧
    (sbrk a st n).2.brk < a.wordMod := by
  unfold sbrk at h ⊢
  simp only [] at h ⊢
  split_ifs at h ⊢ with h0 h1
  · refine ⟨rfl, ?_, hb⟩
    simp [h0]
  · refine ⟨rfl, ?_, ?_⟩
    · simp only []
      exact Int.toNat_of_nonneg h1.1
    · simp only []
      have := Int.toNat_of_nonneg h1.1
      have := h1.2.1
      omega
  · exact absurd rfl h

theorem toIntptr_small (a : Arch) (n : Nat) (h : n < a.wordMod / 2) :
    toIntptr a n = (n : Int) := by
  have hw := a.wordMod_pos
  unfold toIntptr
  rw [Nat.mod_eq_of_lt (by omega)]
  simp [h]


/-- A non-null result of `HmmAlloc` is the break rounded up to the pointer
size, and the break has moved by the signed increment. -/
theorem HmmAlloc_ok (a : Arch) (st : Heap) (size : Nat) (hb : st.brk < a.wordMod)
    (h : (HmmAlloc a st size).1 ≠ NULL) :
    st.brk ≤ (HmmAlloc a st size).1 ∧ (HmmAlloc a st size).1 < st.brk + a.ptrSize ∧
    ((HmmAlloc a st size).2.brk : Int) = (st.brk : Int) + toIntptr a (wadd a size a.ptrSize) ∧
    (HmmAlloc a st size).2.brk < a.wordMod := by
  have h1 := a.two_ptrSize_le
  have h2 := a.ptrSize_pos
  rw [HmmAlloc_snd]
  rw [HmmAlloc_eq] at h ⊢
  split_ifs at h ⊢ with hf
  · exact absurd rfl h
  · obtain ⟨e1, e2, e3⟩ := sbrk_ok a st _ hb hf
    simp only [] at h ⊢
    rw [e1] at h ⊢
    refine ⟨?_, ?_, e2, e3⟩
    · by_cases hx : st.brk + a.ptrSize - 1 < a.wordMod
      · rw [Nat.mod_eq_of_lt hx]
        have d := Nat.div_add_mod (st.brk + a.ptrSize - 1) a.ptrSize
        have m := Nat.mod_lt (st.brk + a.ptrSize - 1) h2
        omega
      · exfalso
        apply h
        have e : (st.brk + a.ptrSize - 1) % a.wordMod = st.brk + a.ptrSize - 1 - a.wordMod := by
          rw [Nat.mod_eq_sub_mod (by omega), Nat.mod_eq_of_lt (by omega)]
        rw [e, Nat.div_eq_of_lt (by omega)]
        rfl
    · have l := Nat.mod_le (st.brk + a.ptrSize - 1) a.wordMod
      have d := Nat.div_add_mod ((st.brk + a.ptrSize - 1) % a.wordMod) a.ptrSize
      omega

theorem HmmAlloc_mem (a : Arch) (st : Heap) (size : Nat) :
    (HmmAlloc a st size).2.mem = st.mem := by
  rw [HmmAlloc_snd, sbrk_mem]

theorem HmmAlloc_calls (a : Arch) (st : Heap) (size : Nat) :
    (HmmAlloc a st size).2.calls
      = st.calls ++ [Call.sbrk (toIntptr a (wadd a size a.ptrSize))] := by
  rw [HmmAlloc_snd, sbrk_calls]

theorem free_brk (st : Heap) (p : Nat) : (free st p).brk = st.brk := by
  unfold free HmmFree; split_ifs <;> rfl

theorem free_mem (st : Heap) (p : Nat) : (free st p).mem = st.mem := by
  unfold free HmmFree; split_ifs <;> rfl

/-- The byte loop leaves every address outside the destination range alone. -/
theorem copyFwd_outside (dest src : Nat) (n i : Nat) (m : Nat → Nat) (x : Nat)
    (hx : x < dest + i ∨ dest + i + n ≤ x) : copyFwd dest src n i m x = m x := by
  induction n generalizing i m with
  | zero => rfl
  | succ n ih =>
    unfold copyFwd
    rw [ih (i + 1) _ (by omega), Function.update_noteq (by omega)]

/-- A destination byte whose source byte lies below the destination range
receives the original source byte. -/
theorem copyFwd_inside (dest src : Nat) (n i : Nat) (m : Nat → Nat) (j : Nat)
    (hj : i ≤ j) (hjn : j < i + n) (hs : src + j < dest) :
    copyFwd dest src n i m (dest + j) = m (src + j) := by
  induction n generalizing i m with
  | zero => omega
  | succ n ih =>
    unfold copyFwd
    by_cases e : j = i
    · subst e
      rw [copyFwd_outside _ _ _ _ _ _ (by omega), Function.update_same]
    · rw [ih (i + 1) _ (by omega) (by omega), Function.update_noteq (by omega)]

theorem align_bound_small (a : Arch) : 64 + a.ptrSize < a.wordMod / 2 := by
  have h : 2 ^ (a.lgPtr + 7 + 1) ≤ 2 ^ a.bits := by
    apply Nat.pow_le_pow_right (by decide)
    have := Nat.lt_two_pow a.lgPtr
    unfold Arch.bits Arch.ptrSize
    omega
  have hp := a.ptrSize_pos
  rw [pow_succ, pow_add] at h
  unfold Arch.wordMod
  unfold Arch.ptrSize at hp ⊢
  norm_num at h
  omega


/-- A successful `malloc` of a size whose increment is positive as an
`intptr_t`: the result is the old break rounded up, and the break has grown by
`size + sizeof(void*)`. -/
theorem malloc_ok (a : Arch) (st : Heap) (S : Nat) (hb : st.brk < a.wordMod)
    (hinc : S + a.ptrSize < a.wordMod / 2) (h : (malloc a st S).1 ≠ NULL) :
    st.brk ≤ (malloc a st S).1 ∧ (malloc a st S).1 < st.brk + a.ptrSize ∧
    (malloc a st S).2.brk = st.brk + (S + a.ptrSize) ∧
    (malloc a st S).2.brk < a.wordMod := by
  unfold malloc at h ⊢
  split_ifs at h ⊢ with h0
  · exact absurd rfl h
  · obtain ⟨e1, e2, e3, e4⟩ := HmmAlloc_ok a st S hb h
    have hw : wadd a S a.ptrSize = S + a.ptrSize := by
      unfold wadd
      exact Nat.mod_eq_of_lt (by omega)
    rw [hw, toIntptr_small a _ hinc] at e3
    refine ⟨e1, e2, ?_, e4⟩
    omega

/-! ## Claims -/

/-- C1: every pointer returned by `malloc`, `calloc` and `realloc` is a
multiple of `sizeof(void*)`, for every size, every argument and every value of
the program break (the null result included). -/
theorem returned_pointer_aligned (a : Arch) (st : Heap) (S nmemb size ptr : Nat) :
    (malloc a st S).1 % a.ptrSize = 0 ∧
    (calloc a st nmemb size).1 % a.ptrSize = 0 ∧
    (realloc a st ptr S).1 % a.ptrSize = 0 := by
  refine ⟨?_, ?_, ?_⟩
  · unfold malloc
    split_ifs
    · exact Nat.zero_mod _
    · exact HmmAlloc_aligned a st S
  · unfold calloc
    simp only []
    split_ifs <;> exact HmmAlloc_aligned a st _
  · unfold realloc
    simp only []
    split_ifs
    · exact HmmAlloc_aligned a st S
    · exact Nat.zero_mod _
    · exact HmmAlloc_aligned a st S
    · exact HmmAlloc_aligned a st S

/-- C2: evaluation at the failing input.  On the fresh 64-bit heap,
`p1 = malloc(16)`, `p2 = malloc(SIZE_MAX - 31)`, `p3 = malloc(16)` make three
successful allocations and no release, the second call passes `-24` to `sbrk`
and takes the first block's grant back, and the third block starts at the
address of the first, which is still live. -/
theorem live_blocks_overlap :
    huge1.1 = 0x1000 ∧ huge2.1 = 0x1018 ∧ huge3.1 = 0x1000 ∧
    huge3.2.calls = [Call.sbrk 24, Call.sbrk (-24), Call.sbrk 24] ∧
    huge3.1 = huge1.1 := by
  decide

/-- C3 as stated fails: on the fresh 64-bit heap `p1 = malloc(64); free(p1);
p2 = malloc(64)` gives `p1 = 0x1000` and `p2 = 0x1048`. -/
theorem freed_range_not_reused_at_64 :
    reuse1.1 = 0x1000 ∧ reuse2.1 = 0x1048 ∧
    reuse1.1 ≠ NULL ∧ reuse2.1 ≠ NULL ∧ reuse2.1 ≠ reuse1.1 := by
  decide

/-- C3, amended: for every size `S` whose increment `S + sizeof(void*)` is
positive as an `intptr_t`, in `p1 = malloc(S); free(p1); p2 = malloc(S)` with
both allocations succeeding, the freed range is not reused: the second block
lies wholly above the first (`p1 + S < p2`) and is carved from a second grant
of `S + sizeof(void*)` bytes. -/
theorem freed_range_not_reused (a : Arch) (st s1 s2 : Heap) (S p1 p2 : Nat)
    (hb : st.brk < a.wordMod) (hinc : S + a.ptrSize < a.wordMod / 2)
    (h1 : malloc a st S = (p1, s1)) (h2 : malloc a (free s1 p1) S = (p2, s2))
    (hp1 : p1 ≠ NULL) (hp2 : p2 ≠ NULL) :
    p1 + S < p2 ∧ s2.brk = s1.brk + (S + a.ptrSize) := by
  have k1 := malloc_ok a st S hb hinc (by rw [h1]; exact hp1)
  rw [h1] at k1
  obtain ⟨-, a2, a3, a4⟩ := k1
  simp only [] at a2 a3 a4
  have hb2 : (free s1 p1).brk < a.wordMod := by rw [free_brk]; exact a4
  have k2 := malloc_ok a (free s1 p1) S hb2 hinc (by rw [h2]; exact hp2)
  rw [h2, free_brk] at k2
  obtain ⟨b1, -, b3, -⟩ := k2
  simp only [] at b1 b3
  exact ⟨by omega, b3⟩

theorem freed_range_not_reused_witness :
    fresh.brk < lp64.wordMod ∧ 64 + lp64.ptrSize < lp64.wordMod / 2 ∧
    malloc lp64 fresh 64 = (reuse1.1, reuse1.2) ∧
    malloc lp64 (free reuse1.2 reuse1.1) 64 = (reuse2.1, reuse2.2) ∧
    reuse1.1 ≠ NULL ∧ reuse2.1 ≠ NULL ∧
    (reuse1.1 + 64 < reuse2.1 ∧ reuse2.2.brk = reuse1.2.brk + (64 + lp64.ptrSize)) :=
  ⟨by decide, by decide, rfl, rfl, by decide, by decide,
    freed_range_not_reused lp64 fresh reuse1.2 reuse2.2 64 reuse1.1 reuse2.1
      (by decide) (by decide) rfl rfl (by decide) (by decide)⟩

/-- C4 as stated fails: on the fresh 64-bit heap, after `p1 = malloc(32);
p2 = malloc(32); free(p1); free(p2)` the break is `0x1050`; `p3 = malloc(64)`
moves it to `0x1098` and returns `0x1050`, above both freed blocks
(`p1 = 0x1000`, `p2 = 0x1028`). -/
theorem no_coalescing_at_fresh :
    coalesce1.1 = 0x1000 ∧ coalesce2.1 = 0x1028 ∧ coalesce3.1 = 0x1050 ∧
    coalesceFreed.brk = 0x1050 ∧ coalesce3.2.brk = 0x1098 ∧
    ¬ (coalesce3.2.brk = coalesceFreed.brk ∧
        coalesce1.1 ≤ coalesce3.1 ∧ coalesce3.1 + 64 ≤ coalesce2.1 + 32) := by
  decide

/-- C4, amended: in `p1 = malloc(32); p2 = malloc(32); free(p1); free(p2);
p3 = malloc(64)` with the three allocations succeeding, the last one is served
by growing the arena: the break moves up by exactly `64 + sizeof(void*)`, and
the 64 bytes of `p3` lie inside the new grant, wholly above the bytes formerly
occupied by `p1` and `p2`. -/
theorem no_coalescing (a : Arch) (st s1 s2 s3 : Heap) (p1 p2 p3 : Nat)
    (hb : st.brk < a.wordMod)
    (h1 : malloc a st 32 = (p1, s1)) (h2 : malloc a s1 32 = (p2, s2))
    (h3 : malloc a (free (free s2 p1) p2) 64 = (p3, s3))
    (hp1 : p1 ≠ NULL) (hp2 : p2 ≠ NULL) (hp3 : p3 ≠ NULL) :
    s3.brk = (free (free s2 p1) p2).brk + (64 + a.ptrSize) ∧
    (free (free s2 p1) p2).brk ≤ p3 ∧ p3 + 64 ≤ s3.brk ∧
    p1 + 32 < p2 ∧ p2 + 32 < p3 := by
  have hs := align_bound_small a
  have k1 := malloc_ok a st 32 hb (by omega) (by rw [h1]; exact hp1)
  rw [h1] at k1
  obtain ⟨-, a2, a3, a4⟩ := k1
  simp only [] at a2 a3 a4
  have k2 := malloc_ok a s1 32 a4 (by omega) (by rw [h2]; exact hp2)
  rw [h2] at k2
  obtain ⟨b1, b2, b3, b4⟩ := k2
  simp only [] at b1 b2 b3 b4
  have hf : (free (free s2 p1) p2).brk = s2.brk := by rw [free_brk, free_brk]
  have k3 := malloc_ok a (free (free s2 p1) p2) 64 (by rw [hf]; exact b4) hs
    (by rw [h3]; exact hp3)
  rw [h3] at k3
  obtain ⟨c1, c2, c3, -⟩ := k3
  simp only [] at c1 c2 c3
  rw [hf] at c1 c2 c3 ⊢
  refine ⟨c3, c1, ?_, ?_, ?_⟩ <;> omega

theorem no_coalescing_witness :
    fresh.brk < lp64.wordMod ∧
    malloc lp64 fresh 32 = (coalesce1.1, coalesce1.2) ∧
    malloc lp64 coalesce1.2 32 = (coalesce2.1, coalesce2.2) ∧
    malloc lp64 (free (free coalesce2.2 coalesce1.1) coalesce2.1) 64
      = (coalesce3.1, coalesce3.2) ∧
    coalesce1.1 ≠ NULL ∧ coalesce2.1 ≠ NULL ∧ coalesce3.1 ≠ NULL ∧
    (coalesce3.2.brk = (free (free coalesce2.2 coalesce1.1) coalesce2.1).brk + (64 + lp64.ptrSize) ∧
      (free (free coalesce2.2 coalesce1.1) coalesce2.1).brk ≤ coalesce3.1 ∧
      coalesce3.1 + 64 ≤ coalesce3.2.brk ∧
      coalesce1.1 + 32 < coalesce2.1 ∧ coalesce2.1 + 32 < coalesce3.1) :=
  ⟨by decide, rfl, rfl, rfl, by decide, by decide, by decide,
    no_coalescing lp64 fresh coalesce1.2 coalesce2.2 coalesce3.2 coalesce1.1 coalesce2.1
      coalesce3.1 (by decide) rfl rfl rfl (by decide) (by decide) (by decide)⟩

/-- C5: `realloc` preserves contents.  For a block of `oldSize` bytes at
`p` lying below the break and a new size `newSize > 0`, when
`realloc(p, newSize)` returns a non-null `q`, byte `i` of the new block equals
byte `i` of the old one for every `i < min(oldSize, newSize)`. -/
theorem realloc_preserves_prefix (a : Arch) (st : Heap) (p oldSize newSize : Nat)
    (hb : st.brk < a.wordMod) (hp : p ≠ NULL) (hlive : p + oldSize ≤ st.brk)
    (hn : 0 < newSize) (hq : (realloc a st p newSize).1 ≠ NULL) :
    ∀ i, i < min oldSize newSize →
      (realloc a st p newSize).2.mem ((realloc a st p newSize).1 + i) = st.mem (p + i) := by
  intro i hi
  have hn0 : newSize ≠ 0 := by omega
  have hr : realloc a st p newSize =
      if (HmmAlloc a st newSize).1 ≠ NULL ∧ p ≠ NULL then
        ((HmmAlloc a st newSize).1,
          HmmFree (memcpy (HmmAlloc a st newSize).2 (HmmAlloc a st newSize).1 p newSize) p)
      else ((HmmAlloc a st newSize).1, (HmmAlloc a st newSize).2) := by
    unfold realloc
    simp only [if_neg hp, if_neg hn0]
  rw [hr] at hq ⊢
  split_ifs at hq ⊢ with hc
  · obtain ⟨hge, -, -, -⟩ := HmmAlloc_ok a st newSize hb hc.1
    have hi1 := lt_of_lt_of_le hi (min_le_left _ _)
    have hi2 := lt_of_lt_of_le hi (min_le_right _ _)
    show copyFwd (HmmAlloc a st newSize).1 p newSize 0 (HmmAlloc a st newSize).2.mem
        ((HmmAlloc a st newSize).1 + i) = st.mem (p + i)
    rw [copyFwd_inside _ _ _ _ _ i (Nat.zero_le _) (by omega) (by omega), HmmAlloc_mem]
  · exact absurd hq (fun h => hc ⟨h, hp⟩)

theorem realloc_preserves_prefix_witness :
    patterned.brk < lp64.wordMod ∧ 0x1000 ≠ NULL ∧ 0x1000 + 16 ≤ patterned.brk ∧ 0 < 64 ∧
    (realloc lp64 patterned 0x1000 64).1 ≠ NULL ∧
    ∀ i, i < min 16 64 →
      (realloc lp64 patterned 0x1000 64).2.mem ((realloc lp64 patterned 0x1000 64).1 + i)
        = patterned.mem (0x1000 + i) :=
  ⟨by decide, by decide, by decide, by decide, by decide,
    realloc_preserves_prefix lp64 patterned 0x1000 16 64 (by decide) (by decide) (by decide)
      (by decide) (by decide)⟩

/-- C6: failure of `realloc` is atomic.  For a non-null `p` and `newSize > 0`,
`realloc(p, newSize)` returns NULL exactly when `HmmAlloc(newSize)` returns
NULL in the same state, and in that case memory is unchanged and the only call
made is the one to `sbrk`: nothing was copied and `HmmFree` was not called. -/
theorem realloc_failure_atomic (a : Arch) (st : Heap) (p newSize : Nat)
    (hp : p ≠ NULL) (hn : 0 < newSize) :
    ((realloc a st p newSize).1 = NULL ↔ (HmmAlloc a st newSize).1 = NULL) ∧
    ((realloc a st p newSize).1 = NULL →
      (realloc a st p newSize).2.mem = st.mem ∧
      (realloc a st p newSize).2.calls
        = st.calls ++ [Call.sbrk (toIntptr a (wadd a newSize a.ptrSize))]) := by
  have hn0 : newSize ≠ 0 := by omega
  have hr : realloc a st p newSize =
      if (HmmAlloc a st newSize).1 ≠ NULL ∧ p ≠ NULL then
        ((HmmAlloc a st newSize).1,
          HmmFree (memcpy (HmmAlloc a st newSize).2 (HmmAlloc a st newSize).1 p newSize) p)
      else ((HmmAlloc a st newSize).1, (HmmAlloc a st newSize).2) := by
    unfold realloc
    simp only [if_neg hp, if_neg hn0]
  rw [hr]
  split_ifs with hc
  · exact ⟨Iff.rfl, fun h => absurd h hc.1⟩
  · exact ⟨Iff.rfl, fun _ => ⟨HmmAlloc_mem a st newSize, HmmAlloc_calls a st newSize⟩⟩

theorem realloc_failure_atomic_witness :
    (0x1000 ≠ NULL ∧ 0 < 64 ∧ (realloc lp64 exhausted 0x1000 64).1 = NULL) ∧
    ((realloc lp64 exhausted 0x1000 64).1 = NULL ↔ (HmmAlloc lp64 exhausted 64).1 = NULL) ∧
    ((realloc lp64 exhausted 0x1000 64).1 = NULL →
      (realloc lp64 exhausted 0x1000 64).2.mem = exhausted.mem ∧
      (realloc lp64 exhausted 0x1000 64).2.calls
        = exhausted.calls ++ [Call.sbrk (toIntptr lp64 (wadd lp64 64 lp64.ptrSize))]) :=
  ⟨by decide, realloc_failure_atomic lp64 exhausted 0x1000 64 (by decide) (by decide)⟩

/-- C7: evaluation at the failing input.  On the fresh 64-bit heap
`calloc(2^32, 2^32)` returns the non-null pointer `0x1000` after asking `sbrk`
for 8 bytes and `memset` for 0 bytes: the `2^32 * 2^32` bytes from the
returned pointer are not inside the arena, which ends at `0x1008`. -/
theorem calloc_product_wraps :
    overflowed.1 = 0x1000 ∧ overflowed.1 ≠ NULL ∧ overflowed.2.brk = 0x1008 ∧
    overflowed.2.calls = [Call.sbrk 8, Call.memset 0x1000 0 0] ∧
    ¬ (overflowed.1 + 2 ^ 32 * 2 ^ 32 ≤ overflowed.2.brk) := by
  decide

/-- C8: an allocation fails only when `sbrk` fails.  For every size and every
state of a process (the break `b` is a non-null address with
`b + sizeof(void*) <= 2^w`, as any break past the data segment is),
`HmmAlloc(size)` returns NULL if and only if `sbrk` returned `(void*)-1`; in
particular the aligned result is non-null whenever `sbrk` succeeds. -/
theorem HmmAlloc_null_iff_sbrk_failed (a : Arch) (st : Heap) (size : Nat)
    (h0 : 0 < st.brk) (ht : st.brk + a.ptrSize ≤ a.wordMod) :
    (HmmAlloc a st size).1 = NULL ↔
      (sbrk a st (wadd a size a.ptrSize)).1 = sbrkFailed a := by
  have h2 := a.ptrSize_pos
  rw [HmmAlloc_eq]
  split_ifs with hf
  · exact ⟨fun _ => hf, fun _ => rfl⟩
  · refine ⟨fun h => ?_, fun h => absurd h hf⟩
    exfalso
    have e1 : (sbrk a st (wadd a size a.ptrSize)).1 = st.brk := by
      rcases sbrk_fst a st (wadd a size a.ptrSize) with e | e
      · exact e
      · exact absurd e hf
    simp only [] at h
    rw [e1, Nat.mod_eq_of_lt (by omega)] at h
    have d := Nat.div_add_mod (st.brk + a.ptrSize - 1) a.ptrSize
    have m := Nat.mod_lt (st.brk + a.ptrSize - 1) h2
    unfold NULL at h
    omega

theorem HmmAlloc_null_iff_sbrk_failed_witness :
    (0 < exhausted.brk ∧ exhausted.brk + lp64.ptrSize ≤ lp64.wordMod ∧
      (HmmAlloc lp64 exhausted 64).1 = NULL) ∧
    ((HmmAlloc lp64 exhausted 64).1 = NULL ↔
      (sbrk lp64 exhausted (wadd lp64 64 lp64.ptrSize)).1 = sbrkFailed lp64) ∧
    (0 < fresh.brk ∧ fresh.brk + lp64.ptrSize ≤ lp64.wordMod ∧
      (HmmAlloc lp64 fresh 64).1 ≠ NULL) ∧
    ((HmmAlloc lp64 fresh 64).1 = NULL ↔
      (sbrk lp64 fresh (wadd lp64 64 lp64.ptrSize)).1 = sbrkFailed lp64) :=
  ⟨by decide, HmmAlloc_null_iff_sbrk_failed lp64 exhausted 64 (by decide) (by decide),
    by decide, HmmAlloc_null_iff_sbrk_failed lp64 fresh 64 (by decide) (by decide)⟩

/-- C9: evaluation at the failing input.  On the 64-bit heap left by
`malloc(16)` (break `0x1018`), `malloc(SIZE_MAX - 31)` passes `-24` to `sbrk`,
returns the non-null pointer `0x1018` and leaves the break at `0x1000`, below
where it was. -/
theorem break_decreases :
    huge1.2.brk = 0x1018 ∧ huge2.1 = 0x1018 ∧ huge2.2.brk = 0x1000 ∧
    huge2.2.calls = [Call.sbrk 24, Call.sbrk (-24)] ∧
    huge2.2.brk < huge1.2.brk := by
  decide

/-- C10: `malloc(0)` returns NULL and leaves the whole state as it was: the
break, the memory contents and the call log (neither `HmmAlloc` nor `sbrk` is
reached). -/
theorem malloc_zero_noop (a : Arch) (st : Heap) : malloc a st 0 = (NULL, st) := by
  unfold malloc
  rw [if_pos rfl]

/-! ## Sequences of calls: the break never moves down -/

theorem ptrSize_lt_half (a : Arch) : a.ptrSize < a.wordMod / 2 := by
  have h := align_bound_small a
  omega

/-- A call of `sbrk` with an increment that is positive as an `intptr_t`
leaves the break where it was or above, and below `2^w`. -/
theorem sbrk_brk_small (a : Arch) (st : Heap) (n : Nat) (hb : st.brk < a.wordMod)
    (hn : n < a.wordMod / 2) :
    (sbrk a st n).2.brk < a.wordMod ∧ st.brk ≤ (sbrk a st n).2.brk := by
  unfold sbrk
  simp only [toIntptr_small a n hn]
  split_ifs with h0 h1
  · exact ⟨hb, le_refl _⟩
  · simp only []
    have e := Int.toNat_of_nonneg h1.1
    have := h1.2.1
    constructor <;> omega
  · exact ⟨hb, le_refl _⟩

/-- What `HmmAlloc` does for a size whose increment is positive as an
`intptr_t`: the break does not move down, and a non-null result lies at or
above the old break and strictly below the new one. -/
theorem HmmAlloc_mono (a : Arch) (st : Heap) (size : Nat) (hb : st.brk < a.wordMod)
    (hinc : size + a.ptrSize < a.wordMod / 2) :
    (HmmAlloc a st size).2.brk < a.wordMod ∧ st.brk ≤ (HmmAlloc a st size).2.brk ∧
    ((HmmAlloc a st size).1 ≠ NULL →
      st.brk ≤ (HmmAlloc a st size).1 ∧ (HmmAlloc a st size).1 < (HmmAlloc a st size).2.brk) := by
  have hw : wadd a size a.ptrSize = size + a.ptrSize := by
    unfold wadd
    exact Nat.mod_eq_of_lt (by omega)
  have k := sbrk_brk_small a st (wadd a size a.ptrSize) hb (by rw [hw]; exact hinc)
  rw [← HmmAlloc_snd] at k
  refine ⟨k.1, k.2, fun h => ?_⟩
  obtain ⟨e1, e2, e3, -⟩ := HmmAlloc_ok a st size hb h
  rw [hw, toIntptr_small a _ hinc] at e3
  constructor <;> omega

theorem memset_brk (st : Heap) (s c n : Nat) : (memset st s c n).brk = st.brk := rfl

theorem memcpy_brk (st : Heap) (d s n : Nat) : (memcpy st d s n).brk = st.brk := rfl

theorem HmmFree_brk (st : Heap) (p : Nat) : (HmmFree st p).brk = st.brk := rfl

/-- One call whose request is positive as an `intptr_t` does not move the
break down, and a non-null result lies between the old and the new break. -/
theorem exec_mono (a : Arch) (st : Heap) (op : Op) (hb : st.brk < a.wordMod)
    (hinc : op.size a + a.ptrSize < a.wordMod / 2) :
    (exec a st op).2.brk < a.wordMod ∧ st.brk ≤ (exec a st op).2.brk ∧
    ((exec a st op).1 ≠ NULL →
      st.brk ≤ (exec a st op).1 ∧ (exec a st op).1 < (exec a st op).2.brk) := by
  cases op with
  | malloc n =>
    show (malloc a st n).2.brk < _ ∧ _ ≤ (malloc a st n).2.brk ∧
      ((malloc a st n).1 ≠ NULL → _ ≤ (malloc a st n).1 ∧ (malloc a st n).1 < (malloc a st n).2.brk)
    unfold malloc
    split_ifs
    · exact ⟨hb, le_refl _, fun h => absurd rfl h⟩
    · exact HmmAlloc_mono a st n hb hinc
  | calloc n s =>
    have k := HmmAlloc_mono a st (wmul a n s) hb hinc
    show (calloc a st n s).2.brk < _ ∧ _ ≤ (calloc a st n s).2.brk ∧
      ((calloc a st n s).1 ≠ NULL →
        _ ≤ (calloc a st n s).1 ∧ (calloc a st n s).1 < (calloc a st n s).2.brk)
    unfold calloc
    simp only []
    split_ifs
    · simp only [memset_brk]
      exact k
    · exact k
  | realloc p n =>
    have k := HmmAlloc_mono a st n hb hinc
    show (realloc a st p n).2.brk < _ ∧ _ ≤ (realloc a st p n).2.brk ∧
      ((realloc a st p n).1 ≠ NULL →
        _ ≤ (realloc a st p n).1 ∧ (realloc a st p n).1 < (realloc a st p n).2.brk)
    unfold realloc
    simp only []
    split_ifs
    · exact k
    · exact ⟨hb, le_refl _, fun h => absurd rfl h⟩
    · simp only [HmmFree_brk, memcpy_brk]
      exact k
    · exact k
  | free p =>
    show (free st p).brk < _ ∧ _ ≤ (free st p).brk ∧ (NULL ≠ NULL → _)
    rw [free_brk]
    exact ⟨hb, le_refl _, fun h => absurd rfl h⟩

theorem returned_cons (a : Arch) (st : Heap) (op : Op) (ops : List Op) :
    returned a st (op :: ops) =
      if (exec a st op).1 ≠ NULL then (exec a st op).1 :: returned a (exec a st op).2 ops
      else returned a (exec a st op).2 ops := by
  unfold returned
  simp only [run, List.filter_cons]
  split_ifs <;> simp_all

/-- The non-null pointers returned by a sequence of calls with positive
increments lie at or above the initial break and are strictly increasing. -/
theorem returned_sorted (a : Arch) (ops : List Op) :
    ∀ st : Heap, st.brk < a.wordMod →
      (∀ op ∈ ops, Op.size a op + a.ptrSize < a.wordMod / 2) →
      (∀ p ∈ returned a st ops, st.brk ≤ p) ∧
      (returned a st ops).Pairwise (fun p q => p < q) := by
  induction ops with
  | nil =>
    intro st _ _
    exact ⟨fun p hp => by simp [returned, run] at hp, by simp [returned, run]⟩
  | cons op ops ih =>
    intro st hb hreq
    obtain ⟨k1, k2, k3⟩ := exec_mono a st op hb (hreq op (List.mem_cons_self _ _))
    obtain ⟨i1, i2⟩ := ih (exec a st op).2 k1 (fun o ho => hreq o (List.mem_cons_of_mem _ ho))
    rw [returned_cons]
    split_ifs with hp
    · obtain ⟨j1, j2⟩ := k3 hp
      constructor
      · intro p hmem
        rcases List.mem_cons.1 hmem with e | e
        · rw [e]; exact j1
        · exact le_trans k2 (i1 p e)
      · exact List.Pairwise.cons (fun q hq => lt_of_lt_of_le j2 (i1 q hq)) i2
    · exact ⟨fun p hmem => le_trans k2 (i1 p hmem), i2⟩

/-- A non-null previous break that leaves room for the alignment is rounded up
to a non-null pointer. -/
theorem HmmAlloc_nonnull (a : Arch) (st : Heap) (size : Nat)
    (h0 : 0 < st.brk) (ht : st.brk + a.ptrSize ≤ a.wordMod)
    (hs : (sbrk a st (wadd a size a.ptrSize)).1 ≠ sbrkFailed a) :
    (HmmAlloc a st size).1 ≠ NULL := by
  have h2 := a.ptrSize_pos
  rw [HmmAlloc_eq, if_neg hs]
  have e1 : (sbrk a st (wadd a size a.ptrSize)).1 = st.brk := by
    rcases sbrk_fst a st (wadd a size a.ptrSize) with e | e
    · exact e
    · exact absurd e hs
  simp only []
  rw [e1, Nat.mod_eq_of_lt (by omega)]
  have d := Nat.div_add_mod (st.brk + a.ptrSize - 1) a.ptrSize
  have m := Nat.mod_lt (st.brk + a.ptrSize - 1) h2
  unfold NULL
  omega

/-- For a non-zero size `realloc(NULL, n)` is `malloc(n)`. -/
theorem realloc_null_of_pos (a : Arch) (st : Heap) (n : Nat) (hn : n ≠ 0) :
    realloc a st NULL n = malloc a st n := by
  unfold realloc malloc
  rw [if_pos rfl, if_neg hn]

/-! ## Claims, continued -/

/-- C11: `free(NULL)` is a no-op: the state after it is the state before it,
in every component (the break, `heap_base`, the memory contents, the call
log). -/
theorem free_null_noop (st : Heap) : free st NULL = st := by
  unfold free
  rw [if_pos rfl]

/-- C12: evaluation at the failing input.  On the fresh 64-bit heap
`malloc(0)` returns NULL and leaves the break at `0x1000`, while
`realloc(NULL, 0)` reaches `HmmAlloc(0)`, returns `0x1000` and moves the break
to `0x1008`. -/
theorem realloc_null_zero_differs :
    (malloc lp64 fresh 0).1 = NULL ∧ (malloc lp64 fresh 0).2.brk = 0x1000 ∧
    (realloc lp64 fresh NULL 0).1 = 0x1000 ∧ (realloc lp64 fresh NULL 0).2.brk = 0x1008 ∧
    (realloc lp64 fresh NULL 0).2.calls = [Call.sbrk 8] ∧
    (realloc lp64 fresh NULL 0).1 ≠ (malloc lp64 fresh 0).1 ∧
    (realloc lp64 fresh NULL 0).2.brk ≠ (malloc lp64 fresh 0).2.brk := by
  decide

/-- C13: for a non-null `p`, `realloc(p, 0)` returns NULL and leaves exactly
the state `free(p)` leaves: the break and the memory are as before, and the
only call made is the one to `HmmFree` (no `sbrk`, no `memcpy`). -/
theorem realloc_zero_is_free (a : Arch) (st : Heap) (p : Nat) (hp : p ≠ NULL) :
    realloc a st p 0 = (NULL, free st p) ∧
    (free st p).brk = st.brk ∧ (free st p).mem = st.mem ∧
    (free st p).calls = st.calls ++ [Call.HmmFree p] := by
  refine ⟨?_, free_brk st p, free_mem st p, ?_⟩
  · unfold realloc free
    rw [if_neg hp, if_pos rfl, if_neg hp]
  · unfold free
    rw [if_neg hp]
    rfl

theorem realloc_zero_is_free_witness :
    0x1000 ≠ NULL ∧
    (realloc lp64 patterned 0x1000 0 = (NULL, free patterned 0x1000) ∧
      (free patterned 0x1000).brk = patterned.brk ∧
      (free patterned 0x1000).mem = patterned.mem ∧
      (free patterned 0x1000).calls = patterned.calls ++ [Call.HmmFree 0x1000]) :=
  ⟨by decide, realloc_zero_is_free lp64 patterned 0x1000 (by decide)⟩

/-- C14: evaluation at the failing input.  On the fresh 64-bit heap
`calloc(2^63 + 8, 2)`, whose product `2^64 + 16` exceeds `SIZE_MAX`, does not
fail: it asks `sbrk` for `16 + 8` bytes, zeroes 16 bytes and returns the
non-null pointer `0x1000`. -/
theorem calloc_overflow_not_rejected :
    lp64.wordMod - 1 < (2 ^ 63 + 8) * 2 ∧ wmul lp64 (2 ^ 63 + 8) 2 = 16 ∧
    wrapped16.1 = 0x1000 ∧ wrapped16.1 ≠ NULL ∧ wrapped16.2.brk = 0x1018 ∧
    wrapped16.2.calls = [Call.sbrk 24, Call.memset 0x1000 0 16] := by
  decide

/-- C15 as stated fails: on the fresh 64-bit heap `HmmAlloc(0)` returns the
non-null pointer `0x1000` and moves the break from `0x1000` to `0x1008`. -/
theorem HmmAlloc_zero_at_fresh :
    (HmmAlloc lp64 fresh 0).1 = 0x1000 ∧ (HmmAlloc lp64 fresh 0).2.brk = 0x1008 ∧
    ¬ ((HmmAlloc lp64 fresh 0).1 = NULL ∧ (HmmAlloc lp64 fresh 0).2.brk = fresh.brk) := by
  decide

/-- C15, amended: `HmmAlloc` has no case for a zero size.  `HmmAlloc(0)` asks
`sbrk` for `sizeof(void*)` bytes and, when `sbrk` succeeds from a non-zero
break `b`, returns the non-null pointer `b` rounded up to the pointer size and
leaves the break at `b + sizeof(void*)`.  The null result without any change
of state for a zero size comes from `malloc(0)`, which returns before
reaching the engine. -/
theorem HmmAlloc_zero_grows (a : Arch) (st : Heap)
    (h0 : 0 < st.brk) (hb : st.brk < a.wordMod)
    (hs : (sbrk a st (wadd a 0 a.ptrSize)).1 ≠ sbrkFailed a) :
    (HmmAlloc a st 0).1 ≠ NULL ∧
    st.brk ≤ (HmmAlloc a st 0).1 ∧ (HmmAlloc a st 0).1 < st.brk + a.ptrSize ∧
    (HmmAlloc a st 0).2.brk = st.brk + a.ptrSize ∧
    malloc a st 0 = (NULL, st) := by
  have hh := ptrSize_lt_half a
  have hw : wadd a 0 a.ptrSize = a.ptrSize := by
    unfold wadd
    rw [Nat.zero_add]
    exact Nat.mod_eq_of_lt a.ptrSize_lt
  obtain ⟨-, s2, s3⟩ := sbrk_ok a st _ hb hs
  rw [hw] at s2 s3
  rw [toIntptr_small a _ hh] at s2
  have hn : (HmmAlloc a st 0).1 ≠ NULL := HmmAlloc_nonnull a st 0 h0 (by omega) hs
  obtain ⟨e1, e2, e3, -⟩ := HmmAlloc_ok a st 0 hb hn
  rw [hw, toIntptr_small a _ hh] at e3
  refine ⟨hn, e1, e2, by omega, ?_⟩
  unfold malloc
  rw [if_pos rfl]

theorem HmmAlloc_zero_grows_witness :
    0 < fresh.brk ∧ fresh.brk < lp64.wordMod ∧
    (sbrk lp64 fresh (wadd lp64 0 lp64.ptrSize)).1 ≠ sbrkFailed lp64 ∧
    ((HmmAlloc lp64 fresh 0).1 ≠ NULL ∧
      fresh.brk ≤ (HmmAlloc lp64 fresh 0).1 ∧
      (HmmAlloc lp64 fresh 0).1 < fresh.brk + lp64.ptrSize ∧
      (HmmAlloc lp64 fresh 0).2.brk = fresh.brk + lp64.ptrSize ∧
      malloc lp64 fresh 0 = (NULL, fresh)) :=
  ⟨by decide, by decide, by decide,
    HmmAlloc_zero_grows lp64 fresh (by decide) (by decide) (by decide)⟩

/-- C16: evaluation at the failing input.  On the 64-bit heap left by
`malloc(16)` (break `0x1018`), `HmmAlloc(SIZE_MAX - 8)` has a size whose sum
with `sizeof(void*)` is `SIZE_MAX` (no wrap); `sbrk` receives it as `-1`,
succeeds and returns `0x1018`; the break ends at `0x1017`, one byte lower, not
`size + sizeof(void*)` higher, and no byte of the block lies below the new
break. -/
theorem negative_increment_shrinks :
    (2 ^ 64 - 9) + lp64.ptrSize < lp64.wordMod ∧
    (sbrk lp64 huge1.2 (wadd lp64 (2 ^ 64 - 9) lp64.ptrSize)).1 ≠ sbrkFailed lp64 ∧
    huge1.2.brk = 0x1018 ∧ carved.1 = 0x1018 ∧ carved.2.brk = 0x1017 ∧
    carved.2.calls = [Call.sbrk 24, Call.sbrk (-1)] ∧
    carved.2.brk ≠ huge1.2.brk + ((2 ^ 64 - 9) + lp64.ptrSize) ∧
    ¬ (carved.1 + (2 ^ 64 - 9) ≤ carved.2.brk) := by
  decide

/-- C17: evaluation at the failing input.  For the 16-byte block at `0x1000`
of the patterned 64-bit heap, `realloc(p, 64)` calls `memcpy` with the new
size, 64, as the length: 64 bytes are read from `0x1000`, not
`min(64, 16) = 16`, and the bytes read reach past the end of the old block. -/
theorem realloc_copies_new_size :
    (realloc lp64 patterned 0x1000 64).1 = 0x1018 ∧
    (realloc lp64 patterned 0x1000 64).2.calls
      = [Call.sbrk 72, Call.memcpy 0x1018 0x1000 64, Call.HmmFree 0x1000] ∧
    64 ≠ min 64 16 ∧ ¬ (0x1000 + 64 ≤ 0x1000 + 16) := by
  decide

/-- C18: evaluation at the failing input.  On the fresh 64-bit heap
`p = malloc(16)` gives `0x1000` and `q = realloc(p, 64)` gives `0x1018`; the
`memcpy` is called with source `[0x1000, 0x1040)` and destination
`[0x1018, 0x1058)`, which share the bytes from `0x1018` to `0x103f`. -/
theorem realloc_memcpy_overlaps :
    grow1.1 = 0x1000 ∧ grow2.1 = 0x1018 ∧
    grow2.2.calls = [Call.sbrk 24, Call.sbrk 72, Call.memcpy 0x1018 0x1000 64,
      Call.HmmFree 0x1000] ∧
    ¬ (grow1.1 + 64 ≤ grow2.1 ∨ grow2.1 + 64 ≤ grow1.1) ∧
    (grow1.1 ≤ 0x1018 ∧ 0x1018 < grow1.1 + 64 ∧ grow2.1 ≤ 0x1018 ∧ 0x1018 < grow2.1 + 64) := by
  decide

/-- C19: addresses are never recycled.  In every sequence of `malloc`,
`calloc`, `realloc` and `free` calls in which every request's size plus
`sizeof(void*)` is positive as an `intptr_t` (so it neither wraps nor is
negative), started from a break below `2^w`, the non-null pointers returned
are strictly increasing; and `free` changes neither the break nor the memory,
on any argument. -/
theorem addresses_never_recycled (a : Arch) (st : Heap) (ops : List Op)
    (hb : st.brk < a.wordMod)
    (hreq : ∀ op ∈ ops, Op.size a op + a.ptrSize < a.wordMod / 2) :
    (returned a st ops).Pairwise (fun p q => p < q) ∧
    ∀ (s : Heap) (p : Nat), (free s p).brk = s.brk ∧ (free s p).mem = s.mem :=
  ⟨(returned_sorted a ops st hb hreq).2, fun s p => ⟨free_brk s p, free_mem s p⟩⟩

theorem addresses_never_recycled_witness :
    fresh.brk < lp64.wordMod ∧
    (∀ op ∈ session, Op.size lp64 op + lp64.ptrSize < lp64.wordMod / 2) ∧
    returned lp64 fresh session = [0x1000, 0x1018, 0x1030, 0x1078, 0x1088] ∧
    ((returned lp64 fresh session).Pairwise (fun p q => p < q) ∧
      ∀ (s : Heap) (p : Nat), (free s p).brk = s.brk ∧ (free s p).mem = s.mem) :=
  ⟨by decide, by decide, by decide,
    addresses_never_recycled lp64 fresh session (by decide) (by decide)⟩

end HMM
